import Mathlib

/-!
Crypto-conditions of bigchainDB-go: a shallow embedding.

The development embeds `cryptoconditions/condition.go`,
`cryptoconditions/fulfillment.go`, `asset.go` and `transaction.go`.

Conventions.

* Go `int64` / `int` fields are `Int`; `InInt64` states the machine range and
  bitwise operators go through the 64-bit two's complement image (`toU64`).
* A Go `string` that is used as text (URIs) is a Lean `String`, a sequence of
  characters; every character the package tests for or writes is ASCII. A Go
  `string` that is only used as raw bytes (`Condition.hash`) and `[]byte` are
  `List Byte`.
* Values that come from outside the program (`uuid.NewV4()`, `time.Now()`) are
  arguments of the functions that read them.
* Go `error` results are `Option` / `Except` over an enumeration of the
  distinct error values the code creates.
* The standard library functions the code calls (`fmt.Sprintf` with `%d` and
  `%s`, `encoding/base64`, `strings.Split`, `regexp.MatchString`,
  `strconv.ParseInt`) are modelled after their Go implementation.
-/

deriving instance DecidableEq for Except

namespace CryptoConditions

/-! ## Machine integers and bytes -/

/-- One octet. -/
abbrev Byte := Fin 256

/-- Range of a Go `int64` (and of `int` on a 64-bit platform). -/
def InInt64 (x : Int) : Prop := -(2 : Int) ^ 63 ≤ x ∧ x < (2 : Int) ^ 63

instance (x : Int) : Decidable (InInt64 x) := by
  unfold InInt64; infer_instance

/-- Two's complement image of an `int64` as an unsigned 64-bit number. -/
def toU64 (x : Int) : Nat := (x % (2 : Int) ^ 64).toNat

/-- Go `x &^ y` on `int64`, as the unsigned 64-bit pattern of the result:
the bits of `x` that are not set in `y`. -/
def andNot64 (x y : Int) : Nat := toU64 x &&& (2 ^ 64 - 1 - toU64 y)

/-! ## `strconv` / `fmt` integer formatting -/

/-- The digit table of `strconv` (`const digits`). -/
def digits : List Char := "0123456789abcdefghijklmnopqrstuvwxyz".data

/-- Character for digit value `d` (`digits[d]`). -/
def digitChar (d : Nat) : Char := digits.getD d '0'

/-- The loop of `strconv.formatBits`: digits are produced from the least
significant one and written right to left. The first argument bounds the number
of iterations; `formatUint` supplies enough. -/
def formatLoop (base : Nat) : Nat → Nat → List Char → List Char
  | 0, u, acc => digitChar (u % base) :: acc
  | fuel + 1, u, acc =>
    if base ≤ u then formatLoop base fuel (u / base) (digitChar (u % base) :: acc)
    else digitChar u :: acc

/-- Text of the unsigned number `u` in base `base` (`strconv.FormatUint`). -/
def formatUint (u base : Nat) : List Char := formatLoop base u u []

/-- Text of the signed number `i` in base `base` (`strconv.FormatInt`): a minus
sign followed by the magnitude for negative numbers. -/
def formatInt (i : Int) (base : Nat) : List Char :=
  if i < 0 then '-' :: formatUint i.natAbs base else formatUint i.natAbs base

/-- The verb `%d` of `fmt.Sprintf` on an integer: signed base 10. -/
def fmtD (i : Int) : List Char := formatInt i 10

/-- One step of reading a decimal text from the left: the value so far times
ten plus the value of the character. -/
def decStep (n : Nat) (c : Char) : Nat := n * 10 + (c.toNat - '0'.toNat)

/-! ## `encoding/base64` -/

/-- The alphabet `encodeURL` of `encoding/base64`. -/
def encodeURL : List Char :=
  "ABCDEFGHIJKLMNOPQRSTUVWXYZabcdefghijklmnopqrstuvwxyz0123456789-_".data

/-- Character of the 6-bit value `v` (`enc.encode[v]`). -/
def encodeChar (v : Nat) : Char := encodeURL.getD v 'A'

/-- The method `Encoding.Encode`, for the URL alphabet. `pad` is the padding
character (`none` for `NoPadding`). Full 3-byte groups give 4 characters; a
remainder of 1 or 2 bytes gives 2 or 3 characters plus padding, if any. -/
def encode (pad : Option Char) : List Byte → List Char
  | b0 :: b1 :: b2 :: rest =>
    let val := b0.val * 65536 + b1.val * 256 + b2.val
    encodeChar (val / 262144 % 64) :: encodeChar (val / 4096 % 64) ::
      encodeChar (val / 64 % 64) :: encodeChar (val % 64) :: encode pad rest
  | [b0, b1] =>
    let val := b0.val * 65536 + b1.val * 256
    encodeChar (val / 262144 % 64) :: encodeChar (val / 4096 % 64) ::
      encodeChar (val / 64 % 64) ::
      (match pad with
       | some p => [p]
       | none => [])
  | [b0] =>
    let val := b0.val * 65536
    encodeChar (val / 262144 % 64) :: encodeChar (val / 4096 % 64) ::
      (match pad with
       | some p => [p, p]
       | none => [])
  | [] => []

/-- Encoder of `base64.RawURLEncoding` (`EncodeToString`): URL alphabet, no
padding. -/
def RawURLEncoding_EncodeToString (src : List Byte) : List Char := encode none src

/-! ## Condition (`cryptoconditions/condition.go`) -/

/-- Constant `MAX_SAFE_BITMASK`. -/
def MAX_SAFE_BITMASK : Int := 0xfffffff

/-- Constant `SUPPORTED_BITMASK`: feature suites supported by this
implementation. -/
def SUPPORTED_BITMASK : Int := 0x3f

/-- Constant `MAX_FULFILLMENT_LENGTH`. -/
def MAX_FULFILLMENT_LENGTH : Int := 65535

/-- The struct `Condition`. -/
structure Condition where
  Bitmask : Int
  TypeId : Int
  hash : List Byte
  maxFulfillmentLength : Int
deriving DecidableEq, Repr

/-- All integer fields are within their Go types. -/
def Condition.WellTyped (c : Condition) : Prop :=
  InInt64 c.Bitmask ∧ InInt64 c.TypeId ∧ InInt64 c.maxFulfillmentLength

instance (c : Condition) : Decidable c.WellTyped := by
  unfold Condition.WellTyped; infer_instance

/-- Getter `Hash`. -/
def Condition.Hash (c : Condition) : List Byte := c.hash

/-- Setter `SetHash`. -/
def Condition.SetHash (c : Condition) (h : List Byte) : Condition :=
  { c with hash := h }

/-- Getter `MaxFulfillmentLength`. -/
def Condition.MaxFulfillmentLength (c : Condition) : Int := c.maxFulfillmentLength

/-- Setter `SetMaxFulfillmentLength`. -/
def Condition.SetMaxFulfillmentLength (c : Condition) (length : Int) : Condition :=
  { c with maxFulfillmentLength := length }

/-- The characters of `Condition.URI`:
`fmt.Sprintf("cc:%d:%d:%s:%d", TypeId, Bitmask, base64(hash), maxFulfillmentLength)`. -/
def Condition.URIChars (c : Condition) : List Char :=
  "cc:".data ++ fmtD c.TypeId ++ ":".data ++ fmtD c.Bitmask ++ ":".data ++
    RawURLEncoding_EncodeToString c.hash ++ ":".data ++ fmtD c.maxFulfillmentLength

/-- The method `Condition.URI`. -/
def Condition.URI (c : Condition) : String := String.mk c.URIChars

/-- The three errors `Condition.Validate` creates, in source order:
"bitmask too large to be safely represented",
"condition requested unsupported feature suites",
"condition requested too large of a max fulfillment size". -/
inductive ValidateError
  | bitmaskTooLarge
  | unsupportedFeatureSuites
  | maxFulfillmentTooLarge
deriving DecidableEq, Repr

/-- The method `Condition.Validate`; `none` is the `nil` error. The second test,
written `if c.Bitmask &^ SUPPORTED_BITMASK` in the source, is read as a test for
a non-zero value. -/
def Condition.Validate (c : Condition) : Option ValidateError :=
  if c.Bitmask > MAX_SAFE_BITMASK then some ValidateError.bitmaskTooLarge
  else if andNot64 c.Bitmask SUPPORTED_BITMASK ≠ 0 then
    some ValidateError.unsupportedFeatureSuites
  else if c.maxFulfillmentLength > MAX_FULFILLMENT_LENGTH then
    some ValidateError.maxFulfillmentTooLarge
  else none

/-- The URI form as the specification words it:
`"cc:" BASE16(typeId) ":" BASE16(bitmask) ":" BASE64URL(fingerprint) ":" BASE10(maxFulfillmentLength)`,
with lowercase base 16. This is the reference `Condition.URI` is compared with,
not a translation of the code. -/
def Condition.URISpec (c : Condition) : String :=
  String.mk ("cc:".data ++ formatInt c.TypeId 16 ++ ":".data ++ formatInt c.Bitmask 16 ++
    ":".data ++ RawURLEncoding_EncodeToString c.hash ++ ":".data ++
    formatInt c.maxFulfillmentLength 10)

/-- The 64-bit pattern of `x` has a bit set that is not set in `mask`: "any
bit set outside" of the mask, as the specification words the second check of
`Validate`. -/
def HasBitOutside (x mask : Int) : Prop :=
  ∃ i, i < 64 ∧ (toU64 x).testBit i = true ∧ (toU64 mask).testBit i = false

/-! ## Regular expressions (`regexp.MatchString`) -/

/-- Regular expressions, as far as the patterns of this package need them:
the empty expression, a character class, concatenation, alternation and the
counted repetition `r{lo,hi}` (`hi = none` for no upper bound, so `r*` is
`rep r 0 none`). -/
inductive Regex
  | empty
  | cls (p : Char → Bool)
  | seq (a b : Regex)
  | alt (a b : Regex)
  | rep (r : Regex) (lo : Nat) (hi : Option Nat)

/-- One more round of `f` on every remainder. -/
def stepRems (f : List Char → List (List Char)) (rs : List (List Char)) :
    List (List Char) := rs.flatMap f

/-- Remainders after exactly `k` rounds of `f`. -/
def iterRems (f : List Char → List (List Char)) : Nat → List (List Char) → List (List Char)
  | 0, rs => rs
  | k + 1, rs => iterRems f k (stepRems f rs)

/-- Remainders after `0, 1, ..., n` further rounds of `f`. -/
def upToRems (f : List Char → List (List Char)) : Nat → List (List Char) → List (List Char)
  | 0, rs => rs
  | n + 1, rs => rs ++ upToRems f n (stepRems f rs)

/-- All the remainders of `s` after a prefix of `s` that the expression
matches. -/
def Regex.rems : Regex → List Char → List (List Char)
  | Regex.empty => fun s => [s]
  | Regex.cls p => fun s =>
    match s with
    | [] => []
    | c :: t => if p c then [t] else []
  | Regex.seq a b => fun s => (Regex.rems a s).flatMap (Regex.rems b)
  | Regex.alt a b => fun s => Regex.rems a s ++ Regex.rems b s
  | Regex.rep r lo hi => fun s =>
    upToRems (Regex.rems r)
      (match hi with
       | some h => h - lo
       | none => s.length)
      (iterRems (Regex.rems r) lo [s])

/-- The expression matches the whole text: what `regexp.MatchString` reports for
a pattern anchored with `^` and `$`. -/
def Regex.fullMatch (r : Regex) (s : List Char) : Bool := (r.rems s).any List.isEmpty

/-- The character `c` itself. -/
def Regex.chr (c : Char) : Regex := Regex.cls (fun x => x == c)

/-- The characters of `s` in a row. -/
def Regex.lit (s : String) : Regex := s.data.foldr (fun c r => Regex.seq (Regex.chr c) r) Regex.empty

/-- The range `lo-hi` of a bracket expression. -/
def inRange (lo hi : Char) (c : Char) : Bool := lo.toNat ≤ c.toNat && c.toNat ≤ hi.toNat

/-- Class `[1-9a-f]`. -/
def cls19af (c : Char) : Bool := inRange '1' '9' c || inRange 'a' 'f' c

/-- Class `[0-9a-f]`. -/
def cls09af (c : Char) : Bool := inRange '0' '9' c || inRange 'a' 'f' c

/-- Class `[1-9]`. -/
def cls19 (c : Char) : Bool := inRange '1' '9' c

/-- Class `[0-9]`. -/
def cls09 (c : Char) : Bool := inRange '0' '9' c

/-- Class `[a-zA-Z0-9_-]`. -/
def clsUrlSafe (c : Char) : Bool :=
  inRange 'a' 'z' c || inRange 'A' 'Z' c || inRange '0' '9' c || c == '_' || c == '-'

/-- The group `([1-9a-f][0-9a-f]{0,3}|0)`. -/
def typeIdGroup : Regex :=
  Regex.alt (Regex.seq (Regex.cls cls19af) (Regex.rep (Regex.cls cls09af) 0 (some 3)))
    (Regex.chr '0')

/-- The group `([1-9][0-9]{0,17}|0)`. -/
def lengthGroup : Regex :=
  Regex.alt (Regex.seq (Regex.cls cls19) (Regex.rep (Regex.cls cls09) 0 (some 17)))
    (Regex.chr '0')

/-- Constant `CONDITION_REGEX`:
`^cc:([1-9a-f][0-9a-f]{0,3}|0):[1-9a-f][0-9a-f]{0,15}:[a-zA-Z0-9_-]{0,86}:([1-9][0-9]{0,17}|0)$`. -/
def CONDITION_REGEX : Regex :=
  Regex.seq (Regex.lit "cc:") (Regex.seq typeIdGroup (Regex.seq (Regex.chr ':')
    (Regex.seq (Regex.cls cls19af) (Regex.seq (Regex.rep (Regex.cls cls09af) 0 (some 15))
      (Regex.seq (Regex.chr ':') (Regex.seq (Regex.rep (Regex.cls clsUrlSafe) 0 (some 86))
        (Regex.seq (Regex.chr ':') lengthGroup)))))))

/-- Constant `CONDITION_REGEX_STRICT`:
`^cc:([1-9a-f][0-9a-f]{0,3}|0):[1-9a-f][0-9a-f]{0,7}:[a-zA-Z0-9_-]{0,86}:([1-9][0-9]{0,17}|0)$`. -/
def CONDITION_REGEX_STRICT : Regex :=
  Regex.seq (Regex.lit "cc:") (Regex.seq typeIdGroup (Regex.seq (Regex.chr ':')
    (Regex.seq (Regex.cls cls19af) (Regex.seq (Regex.rep (Regex.cls cls09af) 0 (some 7))
      (Regex.seq (Regex.chr ':') (Regex.seq (Regex.rep (Regex.cls clsUrlSafe) 0 (some 86))
        (Regex.seq (Regex.chr ':') lengthGroup)))))))

/-- Constant `FULFILLMENT_REGEX`: `^cf:([1-9a-f][0-9a-f]{0,3}|0):[a-zA-Z0-9_-]*$`. -/
def FULFILLMENT_REGEX : Regex :=
  Regex.seq (Regex.lit "cf:") (Regex.seq typeIdGroup (Regex.seq (Regex.chr ':')
    (Regex.rep (Regex.cls clsUrlSafe) 0 none)))

/-- The texts of the group `([1-9a-f][0-9a-f]{0,3}|0)`, spelled out: "0", or a
character of `[1-9a-f]` followed by at most three of `[0-9a-f]`. -/
def IsTypeIdText (h : List Char) : Prop :=
  h = ['0'] ∨ ∃ c0 u, h = c0 :: u ∧ cls19af c0 = true ∧ (∀ c, c ∈ u → cls09af c = true) ∧
    u.length ≤ 3

/-- The call `regexp.MatchString(pattern, s)` for one of the anchored patterns
above (they compile, so the call reports no error). -/
def MatchString (pattern : Regex) (s : String) : Bool := pattern.fullMatch s.data

/-! ## `strings.Split` -/

/-- The call `strings.Split(s, sep)` for a separator of one character (the
package only splits at ":"): the pieces of `s` between the separators, one more
than there are separators. -/
def Split (s : List Char) (sep : Char) : List (List Char) :=
  match s with
  | [] => [[]]
  | c :: t =>
    if c = sep then [] :: Split t sep
    else
      match Split t sep with
      | [] => [[c]]
      | p :: ps => (c :: p) :: ps

/-! ## `strconv.ParseInt` -/

/-- The two kinds of `strconv.NumError`: `ErrSyntax` (here `invalid`) and
`ErrRange` (here `outOfRange`). -/
inductive NumError
  | invalid
  | outOfRange
deriving DecidableEq, Repr

/-- ASCII lower-casing of `strconv` (`lower(c) = c | ('x' - 'X')`), on letters. -/
def lowerAscii (c : Char) : Char :=
  if inRange 'A' 'Z' c then Char.ofNat (c.toNat + 32) else c

/-- Value of a digit character in `ParseUint`: `0-9`, then letters of either
case from 10 on; `none` for any other character. -/
def digitVal (c : Char) : Option Nat :=
  if inRange '0' '9' c then some (c.toNat - '0'.toNat)
  else if inRange 'a' 'z' (lowerAscii c) then some ((lowerAscii c).toNat - 'a'.toNat + 10)
  else none

/-- The digit loop of `strconv.ParseUint` for an explicit base: `n` is the value
read so far, `maxVal` the largest value of the bit size. -/
def parseUintLoop (base maxVal : Nat) : List Char → Nat → Except NumError Nat
  | [], n => Except.ok n
  | c :: t, n =>
    match digitVal c with
    | none => Except.error NumError.invalid
    | some d =>
      if base ≤ d then Except.error NumError.invalid
      else if (2 ^ 64 - 1) / base + 1 ≤ n then Except.error NumError.outOfRange
      else if 2 ^ 64 ≤ n * base + d ∨ maxVal < n * base + d then
        Except.error NumError.outOfRange
      else parseUintLoop base maxVal t (n * base + d)

/-- The function `strconv.ParseUint(s, base, bitSize)` for `2 ≤ base ≤ 36`
(no prefix detection, no underscores). -/
def ParseUint (s : List Char) (base bitSize : Nat) : Except NumError Nat :=
  if s = [] then Except.error NumError.invalid
  else parseUintLoop base (2 ^ bitSize - 1) s 0

/-- The function `strconv.ParseInt(s, base, bitSize)` for `2 ≤ base ≤ 36`: an
optional sign, then `ParseUint`, then the range check of the signed type. -/
def ParseInt (s : List Char) (base bitSize : Nat) : Except NumError Int :=
  match s with
  | [] => Except.error NumError.invalid
  | c :: t =>
    let neg := c == '-'
    let body := if c == '+' || c == '-' then t else c :: t
    match ParseUint body base bitSize with
    | Except.error NumError.invalid => Except.error NumError.invalid
    | Except.error NumError.outOfRange => Except.error NumError.outOfRange
    | Except.ok un =>
      if !neg && 2 ^ (bitSize - 1) ≤ un then Except.error NumError.outOfRange
      else if neg && 2 ^ (bitSize - 1) < un then Except.error NumError.outOfRange
      else Except.ok (if neg then -(un : Int) else (un : Int))

/-! ## `encoding/base64` decoding -/

/-- The table `enc.decodeMap` of the URL alphabet: the 6-bit value of a
character of the alphabet, `none` (0xff in Go) for any other character. -/
def decodeMap (c : Char) : Option Nat :=
  if inRange 'A' 'Z' c then some (c.toNat - 'A'.toNat)
  else if inRange 'a' 'z' c then some (c.toNat - 'a'.toNat + 26)
  else if inRange '0' '9' c then some (c.toNat - '0'.toNat + 52)
  else if c == '-' then some 62
  else if c == '_' then some 63
  else none

/-- Skips carriage returns and line feeds. -/
def skipNewlines : List Char → List Char
  | [] => []
  | c :: t => if c == '\n' || c == '\r' then skipNewlines t else c :: t

/-- The bytes of one quantum: `dbuf` holds `dlen` 6-bit values (2, 3 or 4), which
give `dlen - 1` bytes. -/
def quantumBytes (dbuf : List Nat) : List Byte :=
  let val := dbuf.getD 0 0 * 262144 + dbuf.getD 1 0 * 4096 + dbuf.getD 2 0 * 64 + dbuf.getD 3 0
  ([Fin.ofNat (val / 65536 % 256), Fin.ofNat (val / 256 % 256), Fin.ofNat (val % 256)] :
    List Byte).take (dbuf.length - 1)

/-- The method `Encoding.DecodeString` (non-strict), for the URL alphabet:
`decodeQuantum` repeated over the input. `dbuf` is the quantum being filled and
`out` the bytes decoded so far. At the end of the input an incomplete quantum
is an error for a padded encoding; a padding character must come after two
or three values, be doubled after two, and be followed by nothing but newlines.
`none` stands for `CorruptInputError`. -/
def decodeLoop (pad : Option Char) : List Char → List Nat → List Byte → Option (List Byte)
  | [], dbuf, out =>
    if dbuf.length = 0 then some out
    else if dbuf.length = 1 ∨ pad.isSome then none
    else some (out ++ quantumBytes dbuf)
  | c :: rest, dbuf, out =>
    match decodeMap c with
    | some v =>
      if dbuf.length = 3 then decodeLoop pad rest [] (out ++ quantumBytes (dbuf ++ [v]))
      else decodeLoop pad rest (dbuf ++ [v]) out
    | none =>
      if c == '\n' || c == '\r' then decodeLoop pad rest dbuf out
      else if some c ≠ pad then none
      else if dbuf.length < 2 then none
      else if dbuf.length = 2 then
        match skipNewlines rest with
        | [] => none
        | c2 :: rest2 =>
          if some c2 ≠ pad then none
          else if skipNewlines rest2 = [] then some (out ++ quantumBytes dbuf) else none
      else if skipNewlines rest = [] then some (out ++ quantumBytes dbuf) else none

/-- Decoder of `base64.URLEncoding` (`DecodeString`): URL alphabet, padding
character `=`. -/
def URLEncoding_DecodeString (s : List Char) : Option (List Byte) := decodeLoop (some '=') s [] []

/-- Decoder of `base64.RawURLEncoding` (`DecodeString`): URL alphabet, no
padding. -/
def RawURLEncoding_DecodeString (s : List Char) : Option (List Byte) := decodeLoop none s [] []

/-! ## Fulfillment (`cryptoconditions/fulfillment.go`) -/

/-- The errors `FromURI` returns, in source order: the three format guards
("empty serialized fulfillment string", "serialized fulfillment must start with
'cf'", "invalid fulfillment format"), the error of `strconv.ParseInt` and the
error of the base64 decoder. -/
inductive FromURIError
  | emptyString
  | mustStartWithCf
  | invalidFormat
  | typeId (e : NumError)
  | payload
deriving DecidableEq, Repr

/-- The function `FromURI`, as far as the source goes: its body ends after the
payload is decoded, so the result is the pair of values decoded by then, the
type id and the payload. The third guard, written `return fmt.Errorf(...)` in
the source, returns that error; `regexp.MatchString` reports no error of its
own, the pattern being well formed. -/
def FromURI (serializedFulfillment : String) : Except FromURIError (Int × List Byte) :=
  if serializedFulfillment = "" then Except.error FromURIError.emptyString
  else
    let pieces := Split serializedFulfillment.data ':'
    if pieces.length ≠ 3 ∨ pieces.getD 0 [] ≠ "cf".data then
      Except.error FromURIError.mustStartWithCf
    else if ¬ MatchString FULFILLMENT_REGEX serializedFulfillment then
      Except.error FromURIError.invalidFormat
    else
      match ParseInt (pieces.getD 1 []) 16 64 with
      | Except.error e => Except.error (FromURIError.typeId e)
      | Except.ok typeId =>
        match URLEncoding_DecodeString (pieces.getD 2 []) with
        | none => Except.error FromURIError.payload
        | some payload => Except.ok (typeId, payload)

end CryptoConditions

namespace BigchainDB

open CryptoConditions (Byte)

/-! ## Asset (`asset.go`) -/

/-- The struct `Asset`. `Data` is a byte slice; a `nil` slice and an empty one
are both the empty list. -/
structure Asset where
  ID : String
  Divisible : Bool
  Updatable : Bool
  Refillable : Bool
  Data : List Byte
  Amount : Int
deriving DecidableEq, Repr

/-- The function `NewDefaultAsset`. `uuid` is the text `uuid.NewV4().String()`
returns at the call. -/
def NewDefaultAsset (uuid : String) : Asset :=
  { ID := uuid
    Divisible := false
    Updatable := false
    Refillable := false
    Data := []
    Amount := 1 }

/-- The function `NewAsset`; `amount` is the variadic argument. `uuid` is the
text `uuid.NewV4().String()` would return (it is only called for an empty `id`).
`new(Asset)` starts with `Amount` 0, and `Amount` is only assigned for a
divisible asset, from `amount[0]` after an empty `amount` was replaced by
`[]int64{1}`. For a divisible asset `amount[0]` is always in range; the default
of `headD` is never used. -/
def NewAsset (uuid : String) (id : String) (divisible updatable refillable : Bool)
    (metadata : List Byte) (amount : List Int) : Asset :=
  let id1 := if id = "" then uuid else id
  let amount1 := if divisible ∧ amount.length = 0 then [1] else amount
  { ID := id1
    Divisible := divisible
    Updatable := updatable
    Refillable := refillable
    Data := metadata
    Amount := if divisible then amount1.headD 0 else 0 }

/-! ## Transaction (`transaction.go`) -/

/-- The type `Operation` (a string). -/
abbrev Operation := String

/-- Constant `OP_CREATE`. -/
def OP_CREATE : Operation := "CREATE"

/-- Constant `OP_TRANSFER`. -/
def OP_TRANSFER : Operation := "TRANSFER"

/-- Constant `OP_GENESIS`. -/
def OP_GENESIS : Operation := "GENESIS"

/-- Constant `VERSION`. -/
def VERSION : Int := 1

/-- The struct `Transaction`; the `*Asset` pointer is an `Option`, `none` for
`nil`. -/
structure Transaction where
  Version : Int
  Timestamp : Int
  Operation : Operation
  Asset : Option Asset
deriving DecidableEq, Repr

/-- The function `NewTransaction`. `now` is the value of
`time.Now().UTC().Unix()` and `uuid` the text of `uuid.NewV4().String()` at the
call. -/
def NewTransaction (now : Int) (uuid : String) (asset : Option Asset)
    (operation : Operation) (version timestamp : Int) : Transaction :=
  { Version := if version > 0 then version else VERSION
    Timestamp := if timestamp > 0 then timestamp else now
    Operation := operation
    Asset := if asset = none ∧ operation = OP_CREATE then some (NewDefaultAsset uuid) else asset }

end BigchainDB

/-! # Theorems -/

namespace CryptoConditions

/-! ## Bit patterns -/

theorem toU64_lt (x : Int) : toU64 x < 2 ^ 64 := by
  unfold toU64
  have h1 : 0 ≤ x % (2 : Int) ^ 64 := Int.emod_nonneg _ (by norm_num)
  have h2 : x % (2 : Int) ^ 64 < (2 : Int) ^ 64 := Int.emod_lt_of_pos _ (by norm_num)
  omega

theorem toU64_of_nonneg {x : Int} (h0 : 0 ≤ x) (h1 : x < (2 : Int) ^ 64) :
    (toU64 x : Int) = x := by
  unfold toU64
  rw [Int.emod_eq_of_lt h0 h1]
  omega

theorem toU64_of_neg {x : Int} (h0 : x < 0) (h1 : -(2 : Int) ^ 63 ≤ x) :
    (toU64 x : Int) = x + (2 : Int) ^ 64 := by
  unfold toU64
  have h : x % (2 : Int) ^ 64 = x + (2 : Int) ^ 64 := by
    rw [← Int.add_emod_self]
    exact Int.emod_eq_of_lt (by omega) (by omega)
  rw [h]
  omega

theorem testBit_andNot64 (x y : Int) (i : Nat) :
    (andNot64 x y).testBit i = ((toU64 x).testBit i && (decide (i < 64) && !(toU64 y).testBit i)) := by
  unfold andNot64
  have hy := toU64_lt y
  have e : 2 ^ 64 - 1 - toU64 y = 2 ^ 64 - (toU64 y + 1) := by omega
  rw [e, Nat.testBit_and, Nat.testBit_two_pow_sub_succ hy]

/-- The and-not test of `Validate` is the test for a bit outside the mask. -/
theorem andNot64_ne_zero_iff (x y : Int) : andNot64 x y ≠ 0 ↔ HasBitOutside x y := by
  constructor
  · intro h
    obtain ⟨i, hi⟩ := Nat.ne_zero_implies_bit_true h
    rw [testBit_andNot64] at hi
    simp only [Bool.and_eq_true, decide_eq_true_eq, Bool.not_eq_true'] at hi
    exact ⟨i, hi.2.1, hi.1, hi.2.2⟩
  · rintro ⟨i, hi, hx, hy⟩ h0
    have := testBit_andNot64 x y i
    rw [h0, hx, hy] at this
    simp [hi] at this

/-- A pattern without a bit outside `SUPPORTED_BITMASK` is below 64. -/
theorem toU64_lt_of_no_bit_outside {x : Int} (h : ¬ HasBitOutside x SUPPORTED_BITMASK) :
    toU64 x < 64 := by
  have key : toU64 x < 2 ^ 6 := by
    apply Nat.lt_pow_two_of_testBit
    intro i hi
    by_cases h64 : i < 64
    · by_contra hb
      apply h
      refine ⟨i, h64, by simpa using hb, ?_⟩
      apply Nat.testBit_lt_two_pow
      have : toU64 SUPPORTED_BITMASK = 63 := by decide
      rw [this]
      calc 63 < 2 ^ 6 := by norm_num
        _ ≤ 2 ^ i := Nat.pow_le_pow_right (by norm_num) hi
    · apply Nat.testBit_lt_two_pow
      calc toU64 x < 2 ^ 64 := toU64_lt x
        _ ≤ 2 ^ i := Nat.pow_le_pow_right (by norm_num) (by omega)
  simpa using key

/-- A pattern below 64 has no bit outside `SUPPORTED_BITMASK`. -/
theorem no_bit_outside_of_toU64_lt {x : Int} (h : toU64 x < 64) :
    ¬ HasBitOutside x SUPPORTED_BITMASK := by
  rintro ⟨i, hi, hx, hm⟩
  have hm63 : toU64 SUPPORTED_BITMASK = 63 := by decide
  rw [hm63] at hm
  have h6 : 6 ≤ i := by
    by_contra hlt
    have : i < 6 := by omega
    interval_cases i <;> revert hm <;> decide
  have : (toU64 x).testBit i = false := by
    apply Nat.testBit_lt_two_pow
    calc toU64 x < 2 ^ 6 := by simpa using h
      _ ≤ 2 ^ i := Nat.pow_le_pow_right (by norm_num) h6
  rw [this] at hx
  cases hx

/-- Among `int64` values, those without a bit outside `SUPPORTED_BITMASK` are
the values from 0 to 0x3f. -/
theorem no_bit_outside_iff {x : Int} (hx : InInt64 x) :
    ¬ HasBitOutside x SUPPORTED_BITMASK ↔ 0 ≤ x ∧ x ≤ SUPPORTED_BITMASK := by
  unfold InInt64 at hx
  have hS : SUPPORTED_BITMASK = 63 := rfl
  constructor
  · intro h
    have hlt := toU64_lt_of_no_bit_outside h
    by_cases hneg : x < 0
    · have := toU64_of_neg hneg hx.1
      omega
    · have := toU64_of_nonneg (x := x) (by omega) (by omega)
      omega
  · rintro ⟨h0, h1⟩
    apply no_bit_outside_of_toU64_lt
    have := toU64_of_nonneg (x := x) h0 (by omega)
    omega

/-! ## `Condition.URI`: base of the numeric fields -/

/-- C1: at `TypeId = 10` (with `Bitmask = 1`, empty hash, length 0) the
specified URI form writes the type id in lowercase base 16, "cc:a:1::0", and
`Condition.URI` writes it in base 10, "cc:10:1::0": the two differ. -/
theorem URI_base10_at_typeId_ten :
    Condition.URI ⟨1, 10, [], 0⟩ = "cc:10:1::0" ∧
      Condition.URISpec ⟨1, 10, [], 0⟩ = "cc:a:1::0" ∧
      Condition.URI ⟨1, 10, [], 0⟩ ≠ Condition.URISpec ⟨1, 10, [], 0⟩ := by
  decide

/-- C2: the Condition with `TypeId = 0xffff`, `Bitmask = 1`, empty hash and
length 0 is within the stated ranges, and the string `Condition.URI` returns for
it, "cc:65535:1::0", does not match `CONDITION_REGEX_STRICT` (five characters in
the type id field), while the specified base 16 form "cc:ffff:1::0" does. -/
theorem URI_not_strict_at_typeId_ffff :
    (0 ≤ (Condition.mk 1 0xffff [] 0).TypeId ∧ (Condition.mk 1 0xffff [] 0).TypeId ≤ 0xffff ∧
        1 ≤ (Condition.mk 1 0xffff [] 0).Bitmask ∧
        (Condition.mk 1 0xffff [] 0).Bitmask ≤ 0xffffffff ∧
        (Condition.mk 1 0xffff [] 0).Hash.length ≤ 64 ∧
        0 ≤ (Condition.mk 1 0xffff [] 0).MaxFulfillmentLength ∧
        (Condition.mk 1 0xffff [] 0).MaxFulfillmentLength < 10 ^ 18) ∧
      Condition.URI ⟨1, 0xffff, [], 0⟩ = "cc:65535:1::0" ∧
      MatchString CONDITION_REGEX_STRICT (Condition.URI ⟨1, 0xffff, [], 0⟩) = false ∧
      MatchString CONDITION_REGEX_STRICT (Condition.URISpec ⟨1, 0xffff, [], 0⟩) = true := by
  decide

/-! ## `Condition.Validate` -/

/-- C3: `Validate` is the three checks in order. It returns the
bitmask-too-large error exactly when `Bitmask > MAX_SAFE_BITMASK`; the
unsupported-feature-suites error exactly when that fails and `Bitmask` has a
bit set outside `SUPPORTED_BITMASK`; the max-fulfillment-size error exactly when
both fail and `maxFulfillmentLength > MAX_FULFILLMENT_LENGTH`; and `nil`
exactly when none of the three holds. `Bitmask = MAX_SAFE_BITMASK + 1` gives
the bitmask-too-large error whatever the other fields are. -/
theorem Validate_three_checks (c : Condition) :
    (c.Validate = some ValidateError.bitmaskTooLarge ↔ c.Bitmask > MAX_SAFE_BITMASK) ∧
    (c.Validate = some ValidateError.unsupportedFeatureSuites ↔
      ¬ c.Bitmask > MAX_SAFE_BITMASK ∧ HasBitOutside c.Bitmask SUPPORTED_BITMASK) ∧
    (c.Validate = some ValidateError.maxFulfillmentTooLarge ↔
      ¬ c.Bitmask > MAX_SAFE_BITMASK ∧ ¬ HasBitOutside c.Bitmask SUPPORTED_BITMASK ∧
        c.maxFulfillmentLength > MAX_FULFILLMENT_LENGTH) ∧
    (c.Validate = none ↔
      ¬ c.Bitmask > MAX_SAFE_BITMASK ∧ ¬ HasBitOutside c.Bitmask SUPPORTED_BITMASK ∧
        ¬ c.maxFulfillmentLength > MAX_FULFILLMENT_LENGTH) ∧
    (∀ (typeId : Int) (hash : List Byte) (maxLen : Int),
      Condition.Validate ⟨MAX_SAFE_BITMASK + 1, typeId, hash, maxLen⟩ =
        some ValidateError.bitmaskTooLarge) := by
  have hbit := andNot64_ne_zero_iff c.Bitmask SUPPORTED_BITMASK
  refine ⟨?_, ?_, ?_, ?_, ?_⟩
  · unfold Condition.Validate
    by_cases h1 : c.Bitmask > MAX_SAFE_BITMASK
    · simp [h1]
    · by_cases h2 : andNot64 c.Bitmask SUPPORTED_BITMASK ≠ 0
      · simp [h1, h2]
      · by_cases h3 : c.maxFulfillmentLength > MAX_FULFILLMENT_LENGTH <;> simp [h1, h2, h3]
  · unfold Condition.Validate
    rw [← hbit]
    by_cases h1 : c.Bitmask > MAX_SAFE_BITMASK
    · simp [h1]
    · by_cases h2 : andNot64 c.Bitmask SUPPORTED_BITMASK ≠ 0
      · simp [h1, h2]
      · by_cases h3 : c.maxFulfillmentLength > MAX_FULFILLMENT_LENGTH <;> simp [h1, h2, h3]
  · unfold Condition.Validate
    rw [← hbit]
    by_cases h1 : c.Bitmask > MAX_SAFE_BITMASK
    · simp [h1]
    · by_cases h2 : andNot64 c.Bitmask SUPPORTED_BITMASK ≠ 0
      · simp [h1, h2]
      · by_cases h3 : c.maxFulfillmentLength > MAX_FULFILLMENT_LENGTH <;> simp [h1, h2, h3]
  · unfold Condition.Validate
    rw [← hbit]
    by_cases h1 : c.Bitmask > MAX_SAFE_BITMASK
    · simp [h1]
    · by_cases h2 : andNot64 c.Bitmask SUPPORTED_BITMASK ≠ 0
      · simp [h1, h2]
      · by_cases h3 : c.maxFulfillmentLength > MAX_FULFILLMENT_LENGTH <;> simp [h1, h2, h3]
  · intro typeId hash maxLen
    unfold Condition.Validate
    have : MAX_SAFE_BITMASK + 1 > MAX_SAFE_BITMASK := by omega
    simp [this]

/-- C4, as stated, fails: the Condition with `Bitmask = MAX_SAFE_BITMASK`, type
id 0, empty hash and length 0 is not accepted by `Validate`. -/
theorem Validate_MAX_SAFE_BITMASK_rejected :
    ¬ ∀ c : Condition, c.Bitmask = MAX_SAFE_BITMASK →
      c.maxFulfillmentLength ≤ MAX_FULFILLMENT_LENGTH → c.Validate = none := by
  intro h
  have := h ⟨MAX_SAFE_BITMASK, 0, [], 0⟩ rfl (by decide)
  revert this
  decide

/-- C4, amended: a Condition whose `Bitmask` equals `MAX_SAFE_BITMASK` passes the
bitmask-too-large check but `Validate` returns the unsupported-feature-suites
error for it, whatever its other fields are. -/
theorem Validate_at_MAX_SAFE_BITMASK (c : Condition) (h : c.Bitmask = MAX_SAFE_BITMASK) :
    c.Validate = some ValidateError.unsupportedFeatureSuites ∧
      c.Validate ≠ some ValidateError.bitmaskTooLarge := by
  have hv : c.Validate = some ValidateError.unsupportedFeatureSuites := by
    unfold Condition.Validate
    rw [h, if_neg (by decide), if_pos (by decide)]
  rw [hv]
  exact ⟨rfl, by decide⟩

theorem Validate_at_MAX_SAFE_BITMASK_witness :
    (Condition.mk MAX_SAFE_BITMASK 0 [] 0).Bitmask = MAX_SAFE_BITMASK ∧
      (Condition.mk MAX_SAFE_BITMASK 0 [] 0).Validate =
        some ValidateError.unsupportedFeatureSuites ∧
      (Condition.mk MAX_SAFE_BITMASK 0 [] 0).Validate ≠ some ValidateError.bitmaskTooLarge :=
  ⟨rfl, Validate_at_MAX_SAFE_BITMASK (Condition.mk MAX_SAFE_BITMASK 0 [] 0) rfl⟩

/-- C5, as stated, fails: after `SetMaxFulfillmentLength (-1)` the Condition with
`Bitmask = 1` is accepted by `Validate` and its length is negative. -/
theorem Validate_accepts_negative_length :
    ¬ ∀ c : Condition, c.WellTyped → c.Validate = none →
      0 ≤ c.Bitmask ∧ c.Bitmask ≤ MAX_SAFE_BITMASK ∧
        0 ≤ c.maxFulfillmentLength ∧ c.maxFulfillmentLength ≤ MAX_FULFILLMENT_LENGTH := by
  intro h
  have := h ((Condition.mk 1 0 [] 0).SetMaxFulfillmentLength (-1)) (by decide) (by decide)
  revert this
  decide

/-- C5, amended: every Condition accepted by `Validate` (with `Bitmask` an
`int64`) has `0 ≤ Bitmask ≤ SUPPORTED_BITMASK ≤ MAX_SAFE_BITMASK` and
`maxFulfillmentLength ≤ MAX_FULFILLMENT_LENGTH`; no lower bound on
`maxFulfillmentLength` is checked. -/
theorem Validate_accepted_bounds (c : Condition) (hb : InInt64 c.Bitmask)
    (hv : c.Validate = none) :
    0 ≤ c.Bitmask ∧ c.Bitmask ≤ SUPPORTED_BITMASK ∧ c.Bitmask ≤ MAX_SAFE_BITMASK ∧
      c.maxFulfillmentLength ≤ MAX_FULFILLMENT_LENGTH := by
  unfold Condition.Validate at hv
  by_cases h1 : c.Bitmask > MAX_SAFE_BITMASK
  · simp [h1] at hv
  · by_cases h2 : andNot64 c.Bitmask SUPPORTED_BITMASK ≠ 0
    · simp [h1, h2] at hv
    · by_cases h3 : c.maxFulfillmentLength > MAX_FULFILLMENT_LENGTH
      · simp [h1, h2, h3] at hv
      · have hno : ¬ HasBitOutside c.Bitmask SUPPORTED_BITMASK := by
          rw [← andNot64_ne_zero_iff]
          exact h2
        have hr := (no_bit_outside_iff hb).mp hno
        refine ⟨hr.1, hr.2, ?_, ?_⟩
        · omega
        · omega

theorem Validate_accepted_bounds_witness :
    InInt64 ((Condition.mk 0x3f 0 [] 0).SetMaxFulfillmentLength 65535).Bitmask ∧
      ((Condition.mk 0x3f 0 [] 0).SetMaxFulfillmentLength 65535).Validate = none ∧
      (0 ≤ ((Condition.mk 0x3f 0 [] 0).SetMaxFulfillmentLength 65535).Bitmask ∧
        ((Condition.mk 0x3f 0 [] 0).SetMaxFulfillmentLength 65535).Bitmask ≤ SUPPORTED_BITMASK ∧
        ((Condition.mk 0x3f 0 [] 0).SetMaxFulfillmentLength 65535).Bitmask ≤ MAX_SAFE_BITMASK ∧
        ((Condition.mk 0x3f 0 [] 0).SetMaxFulfillmentLength 65535).maxFulfillmentLength ≤
          MAX_FULFILLMENT_LENGTH) :=
  ⟨by decide, by decide,
    Validate_accepted_bounds ((Condition.mk 0x3f 0 [] 0).SetMaxFulfillmentLength 65535)
      (by decide) (by decide)⟩

/-! ## Regular expressions: what a match says about the text -/

theorem mem_rems_cls {p : Char → Bool} {s t : List Char} :
    t ∈ (Regex.cls p).rems s ↔ ∃ c, s = c :: t ∧ p c = true := by
  cases s with
  | nil => simp [Regex.rems]
  | cons c r =>
    by_cases hp : p c = true
    · simp only [Regex.rems, hp, if_true, List.mem_singleton, List.cons.injEq]
      constructor
      · intro h
        exact ⟨c, ⟨rfl, h.symm⟩, hp⟩
      · rintro ⟨d, ⟨_, h⟩, _⟩
        exact h.symm
    · simp only [Regex.rems, hp, Bool.false_eq_true, if_false, List.not_mem_nil, false_iff]
      rintro ⟨d, hd, hpd⟩
      rw [List.cons.injEq] at hd
      rw [hd.1] at hp
      exact hp hpd

theorem mem_rems_chr {c : Char} {s t : List Char} :
    t ∈ (Regex.chr c).rems s ↔ s = c :: t := by
  unfold Regex.chr
  rw [mem_rems_cls]
  constructor
  · rintro ⟨d, hd, hc⟩
    have : d = c := by simpa using hc
    rw [hd, this]
  · intro h
    exact ⟨c, h, by simp⟩

theorem mem_rems_seq {a b : Regex} {s t : List Char} :
    t ∈ (Regex.seq a b).rems s ↔ ∃ u, u ∈ a.rems s ∧ t ∈ b.rems u := by
  simp [Regex.rems, List.mem_flatMap]

theorem mem_rems_alt {a b : Regex} {s t : List Char} :
    t ∈ (Regex.alt a b).rems s ↔ t ∈ a.rems s ∨ t ∈ b.rems s := by
  simp [Regex.rems]

theorem mem_rems_empty {s t : List Char} : t ∈ Regex.empty.rems s ↔ t = s := by
  simp [Regex.rems]

/-- A remainder after at most `n` further rounds of a character class comes from
one of the starting texts by dropping at most `n` characters of the class. -/
theorem mem_upToRems_cls {p : Char → Bool} {t : List Char} :
    ∀ (n : Nat) (rs : List (List Char)), t ∈ upToRems (Regex.cls p).rems n rs →
      ∃ r, r ∈ rs ∧ ∃ u, r = u ++ t ∧ (∀ c, c ∈ u → p c = true) ∧ u.length ≤ n := by
  intro n
  induction n with
  | zero =>
    intro rs h
    exact ⟨t, h, [], rfl, by simp, by simp⟩
  | succ n ih =>
    intro rs h
    simp only [upToRems, List.mem_append] at h
    rcases h with h | h
    · exact ⟨t, h, [], rfl, by simp, by simp⟩
    · obtain ⟨r, hr, u, hu, hp, hl⟩ := ih _ h
      simp only [stepRems, List.mem_flatMap] at hr
      obtain ⟨r0, hr0, hr1⟩ := hr
      obtain ⟨c, hc, hpc⟩ := mem_rems_cls.mp hr1
      refine ⟨r0, hr0, c :: u, ?_, ?_, ?_⟩
      · rw [hc, hu]; rfl
      · intro d hd
        rcases List.mem_cons.mp hd with hd | hd
        · rw [hd]; exact hpc
        · exact hp d hd
      · simp only [List.length_cons]; omega

/-- A remainder of `[class]{0,hi}` or `[class]*`: the text is a run of
characters of the class, at most `hi` of them, followed by the remainder. -/
theorem mem_rems_rep_cls {p : Char → Bool} {hi : Option Nat} {s t : List Char}
    (h : t ∈ (Regex.rep (Regex.cls p) 0 hi).rems s) :
    ∃ u, s = u ++ t ∧ (∀ c, c ∈ u → p c = true) ∧ ∀ n, hi = some n → u.length ≤ n := by
  simp only [Regex.rems, iterRems] at h
  obtain ⟨r, hr, u, hu, hp, hl⟩ := mem_upToRems_cls _ _ h
  rw [List.mem_singleton] at hr
  refine ⟨u, by rw [← hr, hu], hp, ?_⟩
  intro n hn
  rw [hn] at hl
  simpa using hl

theorem fullMatch_iff {r : Regex} {s : List Char} : r.fullMatch s = true ↔ [] ∈ r.rems s := by
  unfold Regex.fullMatch
  rw [List.any_eq_true]
  constructor
  · rintro ⟨x, hx, he⟩
    have : x = [] := by simpa using he
    rw [← this]; exact hx
  · intro h
    exact ⟨[], h, rfl⟩

theorem mem_rems_typeIdGroup {s t : List Char} (h : t ∈ typeIdGroup.rems s) :
    ∃ x, s = x ++ t ∧ IsTypeIdText x := by
  unfold typeIdGroup at h
  rcases mem_rems_alt.mp h with h | h
  · obtain ⟨u, hu, ht⟩ := mem_rems_seq.mp h
    obtain ⟨c0, hc0, hp0⟩ := mem_rems_cls.mp hu
    obtain ⟨w, hw, hpw, hlw⟩ := mem_rems_rep_cls ht
    refine ⟨c0 :: w, by rw [hc0, hw]; rfl, Or.inr ⟨c0, w, rfl, hp0, hpw, hlw 3 rfl⟩⟩
  · have := mem_rems_chr.mp h
    exact ⟨['0'], by rw [this]; rfl, Or.inl rfl⟩

/-- What a match of `FULFILLMENT_REGEX` says: the text is "cf:", a type id text,
":" and a run of URL-safe base64 characters. -/
theorem FULFILLMENT_REGEX_shape {s : List Char} (h : FULFILLMENT_REGEX.fullMatch s = true) :
    ∃ x p, s = 'c' :: 'f' :: ':' :: (x ++ ':' :: p) ∧ IsTypeIdText x ∧
      ∀ c, c ∈ p → clsUrlSafe c = true := by
  rw [fullMatch_iff] at h
  unfold FULFILLMENT_REGEX at h
  obtain ⟨u1, h1, h⟩ := mem_rems_seq.mp h
  simp only [Regex.lit, List.foldr] at h1
  obtain ⟨a1, ha1, h1⟩ := mem_rems_seq.mp h1
  obtain ⟨a2, ha2, h1⟩ := mem_rems_seq.mp h1
  obtain ⟨a3, ha3, h1⟩ := mem_rems_seq.mp h1
  rw [mem_rems_empty] at h1
  rw [mem_rems_chr] at ha1 ha2 ha3
  obtain ⟨u2, h2, h⟩ := mem_rems_seq.mp h
  obtain ⟨x, hx, hxt⟩ := mem_rems_typeIdGroup h2
  obtain ⟨u3, h3, h⟩ := mem_rems_seq.mp h
  rw [mem_rems_chr] at h3
  obtain ⟨p, hp, hpp, _⟩ := mem_rems_rep_cls h
  refine ⟨x, p, ?_, hxt, hpp⟩
  rw [ha1, ha2, ha3, ← h1, hx, h3, hp]
  simp

/-! ## Regular expressions: the texts that match -/

theorem mem_upToRems_self {f : List Char → List (List Char)} {t : List Char} :
    ∀ (n : Nat) (rs : List (List Char)), t ∈ rs → t ∈ upToRems f n rs := by
  intro n rs h
  cases n with
  | zero => exact h
  | succ n => exact List.mem_append_left _ h

/-- Dropping a run of at most `n` characters of the class from a starting text
gives a remainder after at most `n` rounds. -/
theorem mem_upToRems_cls_of_run {p : Char → Bool} {t : List Char} :
    ∀ (u : List Char) (n : Nat) (rs : List (List Char)), (∀ c, c ∈ u → p c = true) →
      u.length ≤ n → u ++ t ∈ rs → t ∈ upToRems (Regex.cls p).rems n rs := by
  intro u
  induction u with
  | nil =>
    intro n rs _ _ h
    exact mem_upToRems_self n rs h
  | cons c u ih =>
    intro n rs hp hl h
    cases n with
    | zero => simp at hl
    | succ n =>
      simp only [upToRems, List.mem_append]
      right
      apply ih n _ (fun d hd => hp d (List.mem_cons_of_mem _ hd))
        (by simp only [List.length_cons] at hl; omega)
      simp only [stepRems, List.mem_flatMap]
      exact ⟨c :: (u ++ t), h, mem_rems_cls.mpr ⟨c, rfl, hp c (List.mem_cons_self _ _)⟩⟩

theorem mem_rems_rep_cls_of_run {p : Char → Bool} {hi : Option Nat} {u t : List Char}
    (hp : ∀ c, c ∈ u → p c = true) (hl : ∀ n, hi = some n → u.length ≤ n) :
    t ∈ (Regex.rep (Regex.cls p) 0 hi).rems (u ++ t) := by
  simp only [Regex.rems, iterRems]
  apply mem_upToRems_cls_of_run u _ _ hp
  · cases hi with
    | none => simp
    | some n => simpa using hl n rfl
  · exact List.mem_singleton.mpr rfl

theorem mem_rems_typeIdGroup_of_text {x t : List Char} (h : IsTypeIdText x) :
    t ∈ typeIdGroup.rems (x ++ t) := by
  unfold typeIdGroup
  rw [mem_rems_alt]
  rcases h with h | ⟨c0, u, hx, h0, hu, hl⟩
  · right
    rw [h, mem_rems_chr]
    rfl
  · left
    rw [hx, mem_rems_seq]
    refine ⟨u ++ t, mem_rems_cls.mpr ⟨c0, rfl, h0⟩, mem_rems_rep_cls_of_run hu ?_⟩
    intro n hn
    cases hn
    exact hl

/-- The texts `FULFILLMENT_REGEX` matches are exactly "cf:", a type id text, ":"
and a run of URL-safe base64 characters. -/
theorem FULFILLMENT_REGEX_match_iff (s : List Char) :
    FULFILLMENT_REGEX.fullMatch s = true ↔
      ∃ x p, s = 'c' :: 'f' :: ':' :: (x ++ ':' :: p) ∧ IsTypeIdText x ∧
        ∀ c, c ∈ p → clsUrlSafe c = true := by
  constructor
  · exact FULFILLMENT_REGEX_shape
  · rintro ⟨x, p, hs, hx, hp⟩
    rw [fullMatch_iff, hs]
    unfold FULFILLMENT_REGEX
    rw [mem_rems_seq]
    refine ⟨x ++ ':' :: p, ?_, ?_⟩
    · simp only [Regex.lit, List.foldr]
      rw [mem_rems_seq]
      refine ⟨'f' :: ':' :: (x ++ ':' :: p), mem_rems_chr.mpr rfl, ?_⟩
      rw [mem_rems_seq]
      refine ⟨':' :: (x ++ ':' :: p), mem_rems_chr.mpr rfl, ?_⟩
      rw [mem_rems_seq]
      exact ⟨x ++ ':' :: p, mem_rems_chr.mpr rfl, mem_rems_empty.mpr rfl⟩
    · rw [mem_rems_seq]
      refine ⟨':' :: p, mem_rems_typeIdGroup_of_text hx, ?_⟩
      rw [mem_rems_seq]
      refine ⟨p, mem_rems_chr.mpr rfl, ?_⟩
      have := @mem_rems_rep_cls_of_run clsUrlSafe none p [] hp (by intro n hn; cases hn)
      simpa using this

/-! ## `strings.Split` at a separator -/

theorem Split_of_not_mem {sep : Char} :
    ∀ (a : List Char), sep ∉ a → Split a sep = [a] := by
  intro a
  induction a with
  | nil => intro _; rfl
  | cons c t ih =>
    intro h
    have hc : c ≠ sep := fun e => h (by rw [e]; exact List.mem_cons_self _ _)
    have ht : sep ∉ t := fun e => h (List.mem_cons_of_mem _ e)
    rw [Split, if_neg hc, ih ht]

theorem Split_append_sep {sep : Char} (b : List Char) :
    ∀ (a : List Char), sep ∉ a → Split (a ++ sep :: b) sep = a :: Split b sep := by
  intro a
  induction a with
  | nil => intro _; simp [Split]
  | cons c t ih =>
    intro h
    have hc : c ≠ sep := fun e => h (by rw [e]; exact List.mem_cons_self _ _)
    have ht : sep ∉ t := fun e => h (List.mem_cons_of_mem _ e)
    rw [List.cons_append, Split, if_neg hc, ih ht]

theorem colon_not_mem_of_cls09af {u : List Char} (h : ∀ c, c ∈ u → cls09af c = true) :
    ':' ∉ u := by
  intro hm
  have := h _ hm
  revert this
  decide

theorem colon_not_mem_of_clsUrlSafe {u : List Char} (h : ∀ c, c ∈ u → clsUrlSafe c = true) :
    ':' ∉ u := by
  intro hm
  have := h _ hm
  revert this
  decide

theorem colon_not_mem_of_IsTypeIdText {x : List Char} (h : IsTypeIdText x) : ':' ∉ x := by
  rcases h with h | ⟨c0, u, hx, h0, hu, _⟩
  · rw [h]; decide
  · rw [hx]
    intro hm
    rcases List.mem_cons.mp hm with e | e
    · rw [← e] at h0
      revert h0
      decide
    · exact colon_not_mem_of_cls09af hu e

/-- The pieces of a text that matches `FULFILLMENT_REGEX`: "cf", the type id
text and the payload text. -/
theorem Split_of_FULFILLMENT_REGEX {s : List Char} (h : FULFILLMENT_REGEX.fullMatch s = true) :
    ∃ x p, Split s ':' = ['c', 'f'] :: x :: [p] ∧ IsTypeIdText x ∧
      ∀ c, c ∈ p → clsUrlSafe c = true := by
  obtain ⟨x, p, hs, hx, hp⟩ := FULFILLMENT_REGEX_shape h
  refine ⟨x, p, ?_, hx, hp⟩
  have e : s = ['c', 'f'] ++ ':' :: (x ++ ':' :: p) := by rw [hs]; rfl
  rw [e, Split_append_sep _ _ (by decide),
    Split_append_sep _ _ (colon_not_mem_of_IsTypeIdText hx),
    Split_of_not_mem _ (colon_not_mem_of_clsUrlSafe hp)]

/-! ## `FromURI`: the format guards -/

/-- C6: `FromURI` fails at one of its three format guards (empty string, not
three ':'-separated pieces starting with "cf", pattern mismatch) if and only if
the string does not match `FULFILLMENT_REGEX`. -/
theorem FromURI_format_guards_iff (s : String) :
    (FromURI s = Except.error FromURIError.emptyString ∨
      FromURI s = Except.error FromURIError.mustStartWithCf ∨
      FromURI s = Except.error FromURIError.invalidFormat) ↔
    MatchString FULFILLMENT_REGEX s = false := by
  by_cases hm : MatchString FULFILLMENT_REGEX s = true
  · -- a matching string passes the three guards
    have hne : s ≠ "" := by
      intro e
      rw [e] at hm
      revert hm
      decide
    obtain ⟨x, p, hsp, _, _⟩ := Split_of_FULFILLMENT_REGEX hm
    have hg : ¬ ((Split s.data ':').length ≠ 3 ∨ (Split s.data ':').getD 0 [] ≠ "cf".data) := by
      rw [hsp]
      simp
    have hF : FromURI s =
        match ParseInt ((Split s.data ':').getD 1 []) 16 64 with
        | Except.error e => Except.error (FromURIError.typeId e)
        | Except.ok typeId =>
          match URLEncoding_DecodeString ((Split s.data ':').getD 2 []) with
          | none => Except.error FromURIError.payload
          | some payload => Except.ok (typeId, payload) := by
      unfold FromURI
      simp only [if_neg hne, if_neg hg, hm, not_true_eq_false, if_false]
    rw [hF, hm]
    constructor
    · intro h
      exfalso
      generalize ParseInt ((Split s.data ':').getD 1 []) 16 64 = P at h
      generalize URLEncoding_DecodeString ((Split s.data ':').getD 2 []) = D at h
      cases P with
      | error e => rcases h with h | h | h <;> cases h
      | ok t =>
        cases D with
        | none => rcases h with h | h | h <;> cases h
        | some payload => rcases h with h | h | h <;> cases h
    · intro h
      cases h
  · -- a string that does not match is stopped by the first guard it fails
    have hmf : MatchString FULFILLMENT_REGEX s = false := by simpa using hm
    constructor
    · intro _
      exact hmf
    · intro _
      unfold FromURI
      by_cases h1 : s = ""
      · left
        simp [h1]
      · by_cases h2 : (Split s.data ':').length ≠ 3 ∨ (Split s.data ':').getD 0 [] ≠ "cf".data
        · right; left
          simp only [if_neg h1, if_pos h2]
        · right; right
          simp only [if_neg h1, if_neg h2, hmf, Bool.false_eq_true, not_false_eq_true, if_true]

/-! ## Decimal formatting loses nothing -/

theorem digitChar_toNat {d : Nat} (h : d < 10) : (digitChar d).toNat = '0'.toNat + d := by
  interval_cases d <;> rfl

theorem digitChar_ne_colon_minus {d : Nat} (h : d < 10) :
    digitChar d ≠ ':' ∧ digitChar d ≠ '-' := by
  interval_cases d <;> decide

theorem decStep_digitChar (n d : Nat) (h : d < 10) : decStep n (digitChar d) = n * 10 + d := by
  unfold decStep
  rw [digitChar_toNat h]
  omega

/-- Reading back the text of the loop: the digits written for `u` read as `u`. -/
theorem foldl_formatLoop :
    ∀ (fuel u : Nat) (acc : List Char), u ≤ fuel →
      List.foldl decStep 0 (formatLoop 10 fuel u acc) = List.foldl decStep u acc := by
  intro fuel
  induction fuel with
  | zero =>
    intro u acc hu
    have : u = 0 := by omega
    subst this
    simp only [formatLoop, List.foldl_cons]
    rw [decStep_digitChar 0 (0 % 10) (by omega)]
  | succ fuel ih =>
    intro u acc hu
    by_cases hb : 10 ≤ u
    · simp only [formatLoop, if_pos hb]
      rw [ih (u / 10) _ (by omega)]
      simp only [List.foldl_cons]
      rw [decStep_digitChar _ _ (Nat.mod_lt _ (by norm_num))]
      congr 1
      omega
    · simp only [formatLoop, if_neg hb, List.foldl_cons]
      rw [decStep_digitChar 0 u (by omega)]
      congr 1
      omega

/-- Every character the loop writes is a decimal digit. -/
theorem mem_formatLoop :
    ∀ (fuel u : Nat) (acc : List Char) (c : Char), c ∈ formatLoop 10 fuel u acc →
      c ∈ acc ∨ ∃ d, d < 10 ∧ c = digitChar d := by
  intro fuel
  induction fuel with
  | zero =>
    intro u acc c h
    simp only [formatLoop, List.mem_cons] at h
    rcases h with h | h
    · exact Or.inr ⟨u % 10, Nat.mod_lt _ (by norm_num), h⟩
    · exact Or.inl h
  | succ fuel ih =>
    intro u acc c h
    by_cases hb : 10 ≤ u
    · simp only [formatLoop, if_pos hb] at h
      rcases ih _ _ _ h with h | h
      · rcases List.mem_cons.mp h with h | h
        · exact Or.inr ⟨u % 10, Nat.mod_lt _ (by norm_num), h⟩
        · exact Or.inl h
      · exact Or.inr h
    · simp only [formatLoop, if_neg hb, List.mem_cons] at h
      rcases h with h | h
      · exact Or.inr ⟨u, by omega, h⟩
      · exact Or.inl h

theorem formatUint_ten_injective {a b : Nat} (h : formatUint a 10 = formatUint b 10) : a = b := by
  have ha := foldl_formatLoop a a [] (Nat.le_refl _)
  have hb := foldl_formatLoop b b [] (Nat.le_refl _)
  unfold formatUint at h
  rw [h, hb] at ha
  simpa using ha.symm

theorem mem_formatUint_ten {u : Nat} {c : Char} (h : c ∈ formatUint u 10) :
    c ≠ ':' ∧ c ≠ '-' := by
  rcases mem_formatLoop u u [] c h with h | ⟨d, hd, hc⟩
  · cases h
  · rw [hc]; exact digitChar_ne_colon_minus hd

theorem colon_not_mem_fmtD (i : Int) : ':' ∉ fmtD i := by
  unfold fmtD formatInt
  intro h
  by_cases hi : i < 0
  · rw [if_pos hi] at h
    rcases List.mem_cons.mp h with h | h
    · revert h; decide
    · exact (mem_formatUint_ten h).1 rfl
  · rw [if_neg hi] at h
    exact (mem_formatUint_ten h).1 rfl

theorem formatUint_ten_ne_minus_cons (u : Nat) (t : List Char) : formatUint u 10 ≠ '-' :: t := by
  intro h
  have : '-' ∈ formatUint u 10 := by rw [h]; exact List.mem_cons_self _ _
  exact (mem_formatUint_ten this).2 rfl

/-- The verb `%d` is injective. -/
theorem fmtD_injective {i j : Int} (h : fmtD i = fmtD j) : i = j := by
  unfold fmtD formatInt at h
  by_cases hi : i < 0 <;> by_cases hj : j < 0
  · rw [if_pos hi, if_pos hj, List.cons.injEq] at h
    have := formatUint_ten_injective h.2
    omega
  · rw [if_pos hi, if_neg hj] at h
    exact absurd h.symm (formatUint_ten_ne_minus_cons _ _)
  · rw [if_neg hi, if_pos hj] at h
    exact absurd h (formatUint_ten_ne_minus_cons _ _)
  · rw [if_neg hi, if_neg hj] at h
    have := formatUint_ten_injective h
    omega

/-! ## Base64 encoding loses nothing -/

theorem decodeMap_encodeChar {v : Nat} (h : v < 64) : decodeMap (encodeChar v) = some v := by
  have key : ∀ i : Fin 64, decodeMap (encodeChar i.val) = some i.val := by decide
  exact key ⟨v, h⟩

theorem encodeChar_injective {v w : Nat} (hv : v < 64) (hw : w < 64)
    (h : encodeChar v = encodeChar w) : v = w := by
  have h1 := decodeMap_encodeChar hv
  rw [h, decodeMap_encodeChar hw] at h1
  exact (Option.some.inj h1).symm

theorem encodeChar_ne_colon {v : Nat} (h : v < 64) : encodeChar v ≠ ':' := by
  have key : ∀ i : Fin 64, encodeChar i.val ≠ ':' := by decide
  exact key ⟨v, h⟩

theorem colon_not_mem_encode_none : ∀ (src : List Byte), ':' ∉ encode none src
  | [] => by simp [encode]
  | [b0] => by
    simp only [encode, List.mem_cons, List.mem_nil_iff, or_false, not_or]
    exact ⟨(encodeChar_ne_colon (Nat.mod_lt _ (by norm_num))).symm,
      (encodeChar_ne_colon (Nat.mod_lt _ (by norm_num))).symm⟩
  | [b0, b1] => by
    simp only [encode, List.mem_cons, List.mem_nil_iff, or_false, not_or]
    exact ⟨(encodeChar_ne_colon (Nat.mod_lt _ (by norm_num))).symm,
      (encodeChar_ne_colon (Nat.mod_lt _ (by norm_num))).symm,
      (encodeChar_ne_colon (Nat.mod_lt _ (by norm_num))).symm⟩
  | b0 :: b1 :: b2 :: rest => by
    simp only [encode, List.mem_cons, not_or]
    exact ⟨(encodeChar_ne_colon (Nat.mod_lt _ (by norm_num))).symm,
      (encodeChar_ne_colon (Nat.mod_lt _ (by norm_num))).symm,
      (encodeChar_ne_colon (Nat.mod_lt _ (by norm_num))).symm,
      (encodeChar_ne_colon (Nat.mod_lt _ (by norm_num))).symm,
      colon_not_mem_encode_none rest⟩

theorem sextet_eq {v w : Nat} (h : encodeChar (v % 64) = encodeChar (w % 64)) :
    v % 64 = w % 64 :=
  encodeChar_injective (Nat.mod_lt _ (by norm_num)) (Nat.mod_lt _ (by norm_num)) h

/-- The unpadded encoder is injective. -/
theorem encode_none_injective : ∀ (a b : List Byte), encode none a = encode none b → a = b
  | [], [] => fun _ => rfl
  | [], [_] => fun h => by simp [encode] at h
  | [], [_, _] => fun h => by simp [encode] at h
  | [], _ :: _ :: _ :: _ => fun h => by simp [encode] at h
  | [_], [] => fun h => by simp [encode] at h
  | [a0], [b0] => fun h => by
    simp only [encode, List.cons.injEq, and_true] at h
    have h1 := sextet_eq h.1
    have h2 := sextet_eq h.2
    have : a0.val = b0.val := by
      have := a0.isLt
      have := b0.isLt
      omega
    rw [Fin.ext this]
  | [_], [_, _] => fun h => by simp [encode] at h
  | [_], _ :: _ :: _ :: _ => fun h => by simp [encode] at h
  | [_, _], [] => fun h => by simp [encode] at h
  | [_, _], [_] => fun h => by simp [encode] at h
  | [a0, a1], [b0, b1] => fun h => by
    simp only [encode, List.cons.injEq, and_true] at h
    have h1 := sextet_eq h.1
    have h2 := sextet_eq h.2.1
    have h3 := sextet_eq h.2.2
    have ha0 := a0.isLt
    have hb0 := b0.isLt
    have ha1 := a1.isLt
    have hb1 := b1.isLt
    have e0 : a0.val = b0.val := by omega
    have e1 : a1.val = b1.val := by omega
    rw [Fin.ext e0, Fin.ext e1]
  | [_, _], _ :: _ :: _ :: _ => fun h => by simp [encode] at h
  | _ :: _ :: _ :: _, [] => fun h => by simp [encode] at h
  | _ :: _ :: _ :: _, [_] => fun h => by simp [encode] at h
  | _ :: _ :: _ :: _, [_, _] => fun h => by simp [encode] at h
  | a0 :: a1 :: a2 :: ar, b0 :: b1 :: b2 :: br => fun h => by
    simp only [encode, List.cons.injEq] at h
    have h1 := sextet_eq h.1
    have h2 := sextet_eq h.2.1
    have h3 := sextet_eq h.2.2.1
    have h4 := sextet_eq h.2.2.2.1
    have ih := encode_none_injective ar br h.2.2.2.2
    have ha0 := a0.isLt
    have hb0 := b0.isLt
    have ha1 := a1.isLt
    have hb1 := b1.isLt
    have ha2 := a2.isLt
    have hb2 := b2.isLt
    have e0 : a0.val = b0.val := by omega
    have e1 : a1.val = b1.val := by omega
    have e2 : a2.val = b2.val := by omega
    rw [Fin.ext e0, Fin.ext e1, Fin.ext e2, ih]

/-! ## Fields separated by a character that they do not contain -/

theorem append_sep_inj {sep : Char} :
    ∀ (a a2 b b2 : List Char), sep ∉ a → sep ∉ a2 → a ++ sep :: b = a2 ++ sep :: b2 →
      a = a2 ∧ b = b2 := by
  intro a
  induction a with
  | nil =>
    intro a2 b b2 _ h2 h
    cases a2 with
    | nil => simpa using h
    | cons c t =>
      exfalso
      simp only [List.nil_append, List.cons_append, List.cons.injEq] at h
      exact h2 (by rw [h.1]; exact List.mem_cons_self _ _)
  | cons c t ih =>
    intro a2 b b2 h1 h2 h
    cases a2 with
    | nil =>
      exfalso
      simp only [List.nil_append, List.cons_append, List.cons.injEq] at h
      exact h1 (by rw [h.1]; exact List.mem_cons_self _ _)
    | cons c2 t2 =>
      simp only [List.cons_append, List.cons.injEq] at h
      have := ih t2 b b2 (fun e => h1 (List.mem_cons_of_mem _ e))
        (fun e => h2 (List.mem_cons_of_mem _ e)) h.2
      exact ⟨by rw [h.1, this.1], this.2⟩

/-! ## `Condition.URI` is injective -/

/-- C8: `Condition.URI` loses no information: two Conditions with the same URI
have equal `TypeId`, `Bitmask`, hash and `maxFulfillmentLength`. -/
theorem URI_injective (c1 c2 : Condition) (h : c1.URI = c2.URI) :
    c1.TypeId = c2.TypeId ∧ c1.Bitmask = c2.Bitmask ∧ c1.Hash = c2.Hash ∧
      c1.MaxFulfillmentLength = c2.MaxFulfillmentLength := by
  unfold Condition.URI at h
  have hc : c1.URIChars = c2.URIChars := by
    injection h
  unfold Condition.URIChars RawURLEncoding_EncodeToString at hc
  have e : ∀ A B C D : List Char,
      "cc:".data ++ A ++ ":".data ++ B ++ ":".data ++ C ++ ":".data ++ D =
        'c' :: 'c' :: ':' :: (A ++ ':' :: (B ++ ':' :: (C ++ ':' :: D))) := by
    intro A B C D
    simp
  rw [e, e] at hc
  simp only [List.cons.injEq, true_and] at hc
  obtain ⟨hT, hc⟩ := append_sep_inj _ _ _ _ (colon_not_mem_fmtD _) (colon_not_mem_fmtD _) hc
  obtain ⟨hB, hc⟩ := append_sep_inj _ _ _ _ (colon_not_mem_fmtD _) (colon_not_mem_fmtD _) hc
  obtain ⟨hH, hL⟩ := append_sep_inj _ _ _ _ (colon_not_mem_encode_none _)
    (colon_not_mem_encode_none _) hc
  exact ⟨fmtD_injective hT, fmtD_injective hB, encode_none_injective _ _ hH, fmtD_injective hL⟩

theorem URI_injective_witness :
    (Condition.mk 1 0 [0x61] 5).URI = (Condition.mk 1 0 [0x61] 5).URI ∧
      ((Condition.mk 1 0 [0x61] 5).TypeId = (Condition.mk 1 0 [0x61] 5).TypeId ∧
        (Condition.mk 1 0 [0x61] 5).Bitmask = (Condition.mk 1 0 [0x61] 5).Bitmask ∧
        (Condition.mk 1 0 [0x61] 5).Hash = (Condition.mk 1 0 [0x61] 5).Hash ∧
        (Condition.mk 1 0 [0x61] 5).MaxFulfillmentLength =
          (Condition.mk 1 0 [0x61] 5).MaxFulfillmentLength) :=
  ⟨rfl, URI_injective (Condition.mk 1 0 [0x61] 5) (Condition.mk 1 0 [0x61] 5) rfl⟩

/-! ## `FromURI`: the payload decoder -/

/-- C7: for type id 0 and the one-byte payload "a", the URI form is "cf:0:YQ"
(unpadded base64url, as `Condition.URI` writes it); it matches
`FULFILLMENT_REGEX`, the unpadded decoder gives the payload back, and `FromURI`,
which decodes with the padded `base64.URLEncoding`, fails at the payload
step. -/
theorem FromURI_rejects_unpadded_payload :
    String.mk ("cf:".data ++ formatInt 0 16 ++ ":".data ++
        RawURLEncoding_EncodeToString [0x61]) = "cf:0:YQ" ∧
      MatchString FULFILLMENT_REGEX "cf:0:YQ" = true ∧
      RawURLEncoding_DecodeString "YQ".data = some [0x61] ∧
      FromURI "cf:0:YQ" = Except.error FromURIError.payload := by
  decide

/-! ## The setters -/

/-- C12: `SetHash` sets the hash and touches nothing else: afterwards `Hash`
returns the argument and `TypeId`, `Bitmask` and `maxFulfillmentLength` are
unchanged; likewise `SetMaxFulfillmentLength` makes `MaxFulfillmentLength`
return the argument and leaves `TypeId`, `Bitmask` and the hash unchanged. -/
theorem setters_frame (c : Condition) (h : List Byte) (n : Int) :
    ((c.SetHash h).Hash = h ∧ (c.SetHash h).TypeId = c.TypeId ∧
      (c.SetHash h).Bitmask = c.Bitmask ∧
      (c.SetHash h).MaxFulfillmentLength = c.MaxFulfillmentLength) ∧
    ((c.SetMaxFulfillmentLength n).MaxFulfillmentLength = n ∧
      (c.SetMaxFulfillmentLength n).TypeId = c.TypeId ∧
      (c.SetMaxFulfillmentLength n).Bitmask = c.Bitmask ∧
      (c.SetMaxFulfillmentLength n).Hash = c.Hash) :=
  ⟨⟨rfl, rfl, rfl, rfl⟩, ⟨rfl, rfl, rfl, rfl⟩⟩

/-! ## `Condition.Validate`: the accepted set -/

/-- `Validate` accepts exactly when each of its three tests is negative. -/
theorem Validate_eq_none_iff (c : Condition) :
    c.Validate = none ↔
      ¬ c.Bitmask > MAX_SAFE_BITMASK ∧ andNot64 c.Bitmask SUPPORTED_BITMASK = 0 ∧
        ¬ c.maxFulfillmentLength > MAX_FULFILLMENT_LENGTH := by
  unfold Condition.Validate
  by_cases h1 : c.Bitmask > MAX_SAFE_BITMASK
  · simp [h1]
  · by_cases h2 : andNot64 c.Bitmask SUPPORTED_BITMASK ≠ 0
    · simp [h1, h2]
    · by_cases h3 : c.maxFulfillmentLength > MAX_FULFILLMENT_LENGTH
      · simp [h1, h2, h3]
      · have h2' : andNot64 c.Bitmask SUPPORTED_BITMASK = 0 := by
          by_contra hne
          exact h2 hne
        simp [h1, h2', h3]

/-- Among `int64` values the and-not test against `SUPPORTED_BITMASK` is zero
exactly from 0 to 0x3f. -/
theorem andNot64_supported_eq_zero_iff {x : Int} (hx : InInt64 x) :
    andNot64 x SUPPORTED_BITMASK = 0 ↔ 0 ≤ x ∧ x ≤ 0x3f := by
  have h1 := andNot64_ne_zero_iff x SUPPORTED_BITMASK
  have h2 : ¬ HasBitOutside x SUPPORTED_BITMASK ↔ 0 ≤ x ∧ x ≤ 0x3f := no_bit_outside_iff hx
  rw [← h2, ← h1]
  exact not_not.symm

/-- C13: over the `int64` values of `Bitmask`, `Validate` accepts exactly the
Conditions with `0 ≤ Bitmask ≤ 0x3f` and `maxFulfillmentLength ≤ 65535`. Every
negative `Bitmask` fails the and-not test against `SUPPORTED_BITMASK`, and so
does every `Bitmask` above `MAX_SAFE_BITMASK`: acceptance is the and-not test
and the length test alone, the `MAX_SAFE_BITMASK` test only selects the
error. -/
theorem Validate_accepted_set (c : Condition) (hb : InInt64 c.Bitmask) :
    (c.Validate = none ↔
      0 ≤ c.Bitmask ∧ c.Bitmask ≤ 0x3f ∧ c.maxFulfillmentLength ≤ 65535) ∧
    (c.Bitmask < 0 → andNot64 c.Bitmask SUPPORTED_BITMASK ≠ 0) ∧
    (c.Bitmask > MAX_SAFE_BITMASK → andNot64 c.Bitmask SUPPORTED_BITMASK ≠ 0) ∧
    (c.Validate = none ↔
      andNot64 c.Bitmask SUPPORTED_BITMASK = 0 ∧
        ¬ c.maxFulfillmentLength > MAX_FULFILLMENT_LENGTH) := by
  have hz := andNot64_supported_eq_zero_iff hb
  have hv := Validate_eq_none_iff c
  have hM : MAX_SAFE_BITMASK = 0xfffffff := rfl
  have hL : MAX_FULFILLMENT_LENGTH = 65535 := rfl
  rw [hM, hL] at hv
  rw [hM, hL]
  refine ⟨?_, ?_, ?_, ?_⟩
  · rw [hv, hz]
    constructor
    · rintro ⟨_, ⟨h0, h1⟩, h3⟩
      exact ⟨h0, h1, by omega⟩
    · rintro ⟨h0, h1, h3⟩
      exact ⟨by omega, ⟨h0, h1⟩, by omega⟩
  · intro hneg hzero
    have := hz.mp hzero
    omega
  · intro hbig hzero
    have := hz.mp hzero
    omega
  · rw [hv, hz]
    constructor
    · rintro ⟨_, h, h3⟩
      exact ⟨h, h3⟩
    · rintro ⟨h, h3⟩
      exact ⟨by omega, h, h3⟩

theorem Validate_accepted_set_witness :
    InInt64 (Condition.mk (-1) 0 [] 0).Bitmask ∧
      ¬ (Condition.mk (-1) 0 [] 0).Validate = none ∧
      andNot64 (Condition.mk (-1) 0 [] 0).Bitmask SUPPORTED_BITMASK ≠ 0 :=
  ⟨by decide, by decide,
    (Validate_accepted_set (Condition.mk (-1) 0 [] 0) (by decide)).2.1 (by decide)⟩

/-! ## `FromURI`: the type id -/

theorem cls09af_bounds {c : Char} (h : cls09af c = true) :
    (48 ≤ c.toNat ∧ c.toNat ≤ 57) ∨ (97 ≤ c.toNat ∧ c.toNat ≤ 102) := by
  unfold cls09af inRange at h
  have e0 : '0'.toNat = 48 := rfl
  have e9 : '9'.toNat = 57 := rfl
  have ea : 'a'.toNat = 97 := rfl
  have ef : 'f'.toNat = 102 := rfl
  rw [e0, e9, ea, ef] at h
  simp only [Bool.or_eq_true, Bool.and_eq_true, decide_eq_true_eq] at h
  exact h

theorem cls09af_of_cls19af {c : Char} (h : cls19af c = true) : cls09af c = true := by
  unfold cls19af inRange at h
  unfold cls09af inRange
  have e0 : '0'.toNat = 48 := rfl
  have e1 : '1'.toNat = 49 := rfl
  have e9 : '9'.toNat = 57 := rfl
  have ea : 'a'.toNat = 97 := rfl
  have ef : 'f'.toNat = 102 := rfl
  rw [e1, e9, ea, ef] at h
  rw [e0, e9, ea, ef]
  simp only [Bool.or_eq_true, Bool.and_eq_true, decide_eq_true_eq] at h ⊢
  omega

/-- A character of `[0-9a-f]` is a digit of base 16 for `ParseUint`. -/
theorem digitVal_of_cls09af {c : Char} (h : cls09af c = true) :
    ∃ d, digitVal c = some d ∧ d < 16 := by
  have e0 : '0'.toNat = 48 := rfl
  have e9 : '9'.toNat = 57 := rfl
  have ea : 'a'.toNat = 97 := rfl
  have ez : 'z'.toNat = 122 := rfl
  have eA : 'A'.toNat = 65 := rfl
  have eZ : 'Z'.toNat = 90 := rfl
  rcases cls09af_bounds h with hb | hb
  · refine ⟨c.toNat - 48, ?_, by omega⟩
    have h1 : inRange '0' '9' c = true := by
      unfold inRange
      rw [e0, e9]
      simp only [Bool.and_eq_true, decide_eq_true_eq]
      omega
    unfold digitVal
    rw [if_pos h1, e0]
  · refine ⟨c.toNat - 97 + 10, ?_, by omega⟩
    have h1 : ¬ inRange '0' '9' c = true := by
      unfold inRange
      rw [e0, e9]
      simp only [Bool.and_eq_true, decide_eq_true_eq]
      omega
    have h2 : ¬ inRange 'A' 'Z' c = true := by
      unfold inRange
      rw [eA, eZ]
      simp only [Bool.and_eq_true, decide_eq_true_eq]
      omega
    have h3 : lowerAscii c = c := by
      unfold lowerAscii
      rw [if_neg h2]
    have h4 : inRange 'a' 'z' c = true := by
      unfold inRange
      rw [ea, ez]
      simp only [Bool.and_eq_true, decide_eq_true_eq]
      omega
    unfold digitVal
    rw [if_neg h1, h3, if_pos h4, ea]

/-- The digit loop on at most four characters of `[0-9a-f]`: no error, and a
value below `16 ^ 4`. -/
theorem parseUintLoop_hex :
    ∀ (u : List Char) (n k : Nat), (∀ c, c ∈ u → cls09af c = true) → n < 16 ^ k →
      k + u.length ≤ 4 →
      ∃ m, parseUintLoop 16 (2 ^ 64 - 1) u n = Except.ok m ∧ m < 16 ^ (k + u.length) := by
  intro u
  induction u with
  | nil =>
    intro n k _ hn _
    exact ⟨n, rfl, by simpa using hn⟩
  | cons c t ih =>
    intro n k hc hn hk
    simp only [List.length_cons] at hk
    obtain ⟨d, hd, hd16⟩ := digitVal_of_cls09af (hc c (List.mem_cons_self _ _))
    have hk4 : (16 : Nat) ^ k ≤ 16 ^ 4 := Nat.pow_le_pow_right (by norm_num) (by omega)
    have h164 : (16 : Nat) ^ 4 = 65536 := by norm_num
    have hn' : n * 16 + d < 16 ^ (k + 1) := by
      rw [Nat.pow_succ]
      omega
    obtain ⟨m, hm, hlt⟩ := ih (n * 16 + d) (k + 1)
      (fun x hx => hc x (List.mem_cons_of_mem _ hx)) hn' (by omega)
    refine ⟨m, ?_, ?_⟩
    · have g1 : ¬ 16 ≤ d := by omega
      have g2 : ¬ (2 ^ 64 - 1) / 16 + 1 ≤ n := by
        have : (2 ^ 64 - 1) / 16 + 1 = 1152921504606846976 := by norm_num
        rw [this]
        omega
      have g3 : ¬ (2 ^ 64 ≤ n * 16 + d ∨ 2 ^ 64 - 1 < n * 16 + d) := by
        have : (2 : Nat) ^ 64 = 18446744073709551616 := by norm_num
        rw [this]
        omega
      simp only [parseUintLoop, hd, if_neg g1, if_neg g2, if_neg g3]
      exact hm
    · have e : k + (c :: t).length = k + 1 + t.length := by
        simp only [List.length_cons]
        omega
      rw [e]
      exact hlt

/-- A type id text starts with a character of `[0-9a-f]` and goes on with at most
three more. -/
theorem IsTypeIdText_hex {x : List Char} (h : IsTypeIdText x) :
    ∃ c0 u, x = c0 :: u ∧ (∀ c, c ∈ c0 :: u → cls09af c = true) ∧ u.length ≤ 3 := by
  rcases h with h | ⟨c0, u, hx, h0, hu, hl⟩
  · refine ⟨'0', [], h, ?_, by simp⟩
    intro c hc
    rw [List.mem_singleton] at hc
    rw [hc]
    decide
  · refine ⟨c0, u, hx, ?_, hl⟩
    intro c hc
    rcases List.mem_cons.mp hc with e | e
    · rw [e]; exact cls09af_of_cls19af h0
    · exact hu c e

/-- `ParseInt` in base 16 on a type id text gives a value from 0 to 0xffff. -/
theorem ParseInt_of_IsTypeIdText {x : List Char} (h : IsTypeIdText x) :
    ∃ t : Int, ParseInt x 16 64 = Except.ok t ∧ 0 ≤ t ∧ t ≤ 0xffff := by
  obtain ⟨c0, u, hx, hall, hl⟩ := IsTypeIdText_hex h
  obtain ⟨m, hm, hlt⟩ := parseUintLoop_hex (c0 :: u) 0 0 hall (by norm_num)
    (by simp only [List.length_cons]; omega)
  have hpow : (16 : Nat) ^ (0 + (c0 :: u).length) ≤ 16 ^ 4 :=
    Nat.pow_le_pow_right (by norm_num) (by simp only [List.length_cons]; omega)
  have h164 : (16 : Nat) ^ 4 = 65536 := by norm_num
  have hm4 : m < 65536 := by omega
  have hb := cls09af_bounds (hall c0 (List.mem_cons_self _ _))
  have hplus : (c0 == '+') = false := by
    rw [beq_eq_false_iff_ne]
    intro e
    rw [e] at hb
    revert hb
    decide
  have hminus : (c0 == '-') = false := by
    rw [beq_eq_false_iff_ne]
    intro e
    rw [e] at hb
    revert hb
    decide
  have hU : ParseUint (c0 :: u) 16 64 = Except.ok m := by
    unfold ParseUint
    rw [if_neg (by simp)]
    exact hm
  refine ⟨(m : Int), ?_, by omega, by omega⟩
  rw [hx]
  have g : ¬ ((!false && decide (2 ^ (64 - 1) ≤ m)) = true) := by
    have : (2 : Nat) ^ (64 - 1) = 9223372036854775808 := by norm_num
    rw [this]
    simp only [Bool.not_false, Bool.true_and, decide_eq_true_eq]
    omega
  simp only [ParseInt, hplus, hminus, Bool.or_self, Bool.false_eq_true, if_false, hU, g,
    Bool.false_and]

/-- A string that matches `FULFILLMENT_REGEX` reaches the decoding steps. -/
theorem FromURI_of_match {s : String} (hm : MatchString FULFILLMENT_REGEX s = true) :
    FromURI s =
      match ParseInt ((Split s.data ':').getD 1 []) 16 64 with
      | Except.error e => Except.error (FromURIError.typeId e)
      | Except.ok typeId =>
        match URLEncoding_DecodeString ((Split s.data ':').getD 2 []) with
        | none => Except.error FromURIError.payload
        | some payload => Except.ok (typeId, payload) := by
  have hne : s ≠ "" := by
    intro e
    rw [e] at hm
    revert hm
    decide
  obtain ⟨x, p, hsp, _, _⟩ := Split_of_FULFILLMENT_REGEX hm
  have hg : ¬ ((Split s.data ':').length ≠ 3 ∨ (Split s.data ':').getD 0 [] ≠ "cf".data) := by
    rw [hsp]
    simp
  unfold FromURI
  simp only [if_neg hne, if_neg hg, hm, not_true_eq_false, if_false]

/-- A string that does not match `FULFILLMENT_REGEX` stops at a format guard. -/
theorem FromURI_of_not_match {s : String} (hm : MatchString FULFILLMENT_REGEX s = false) :
    FromURI s = Except.error FromURIError.emptyString ∨
      FromURI s = Except.error FromURIError.mustStartWithCf ∨
      FromURI s = Except.error FromURIError.invalidFormat := by
  unfold FromURI
  by_cases h1 : s = ""
  · left
    simp [h1]
  · by_cases h2 : (Split s.data ':').length ≠ 3 ∨ (Split s.data ':').getD 0 [] ≠ "cf".data
    · right; left
      simp only [if_neg h1, if_pos h2]
    · right; right
      simp only [if_neg h1, if_neg h2, hm, Bool.false_eq_true, not_false_eq_true, if_true]

/-- C14: for every string that matches `FULFILLMENT_REGEX`, the second
':'-separated piece parses as a base 16 integer without error, with a type id
from 0 to 0xffff; and `FromURI` never returns the error of `strconv.ParseInt`,
for any string. -/
theorem FromURI_typeId_parse_total (s : String) :
    (MatchString FULFILLMENT_REGEX s = true →
      ∃ t : Int, ParseInt ((Split s.data ':').getD 1 []) 16 64 = Except.ok t ∧
        0 ≤ t ∧ t ≤ 0xffff) ∧
    (∀ e : NumError, FromURI s ≠ Except.error (FromURIError.typeId e)) := by
  have key : MatchString FULFILLMENT_REGEX s = true →
      ∃ t : Int, ParseInt ((Split s.data ':').getD 1 []) 16 64 = Except.ok t ∧
        0 ≤ t ∧ t ≤ 0xffff := by
    intro hm
    obtain ⟨x, p, hsp, hx, _⟩ := Split_of_FULFILLMENT_REGEX hm
    have e : (Split s.data ':').getD 1 [] = x := by rw [hsp]; rfl
    rw [e]
    exact ParseInt_of_IsTypeIdText hx
  refine ⟨key, ?_⟩
  intro e
  by_cases hm : MatchString FULFILLMENT_REGEX s = true
  · obtain ⟨t, ht, _, _⟩ := key hm
    rw [FromURI_of_match hm, ht]
    generalize URLEncoding_DecodeString ((Split s.data ':').getD 2 []) = D
    cases D with
    | none => intro h; cases h
    | some payload => intro h; cases h
  · have hmf : MatchString FULFILLMENT_REGEX s = false := by simpa using hm
    rcases FromURI_of_not_match hmf with h | h | h <;> rw [h] <;> intro h2 <;> cases h2

theorem FromURI_typeId_parse_total_witness :
    MatchString FULFILLMENT_REGEX "cf:ffff:YWJj" = true ∧
      ∃ t : Int, ParseInt ((Split "cf:ffff:YWJj".data ':').getD 1 []) 16 64 = Except.ok t ∧
        0 ≤ t ∧ t ≤ 0xffff :=
  ⟨by decide, (FromURI_typeId_parse_total "cf:ffff:YWJj").1 (by decide)⟩

end CryptoConditions

namespace BigchainDB

/-! ## `NewTransaction` and `NewAsset` -/

/-- C9: `NewTransaction` with a `nil` asset and `OP_CREATE` has the default
asset (not divisible, not updatable, not refillable, amount 1); with a non-nil
asset its `Asset` is the argument; with an operation other than `OP_CREATE` its
`Asset` is the argument, `nil` included; and a `CREATE` transaction is never
without an asset. -/
theorem NewTransaction_asset (now : Int) (uuid : String) (version timestamp : Int) :
    ((NewTransaction now uuid none OP_CREATE version timestamp).Asset =
        some (NewDefaultAsset uuid) ∧
      (NewDefaultAsset uuid).Divisible = false ∧ (NewDefaultAsset uuid).Updatable = false ∧
      (NewDefaultAsset uuid).Refillable = false ∧ (NewDefaultAsset uuid).Amount = 1) ∧
    (∀ (a : Asset) (op : Operation),
      (NewTransaction now uuid (some a) op version timestamp).Asset = some a) ∧
    (∀ (asset : Option Asset) (op : Operation), op ≠ OP_CREATE →
      (NewTransaction now uuid asset op version timestamp).Asset = asset) ∧
    (∀ (asset : Option Asset),
      (NewTransaction now uuid asset OP_CREATE version timestamp).Asset ≠ none) := by
  refine ⟨⟨?_, rfl, rfl, rfl, rfl⟩, ?_, ?_, ?_⟩
  · simp [NewTransaction]
  · intro a op
    simp [NewTransaction]
  · intro asset op hop
    simp [NewTransaction, hop]
  · intro asset
    cases asset with
    | none => simp [NewTransaction]
    | some a => simp [NewTransaction]

theorem NewTransaction_asset_witness :
    OP_TRANSFER ≠ OP_CREATE ∧
      (NewTransaction 1700000000 "u" none OP_TRANSFER 0 0).Asset = none :=
  ⟨by decide,
    (NewTransaction_asset 1700000000 "u" 0 0).2.2.1 none OP_TRANSFER (by decide)⟩

/-- C10: `NewAsset` without an amount argument gives `Amount` 1 for a divisible
asset and leaves `Amount` 0 for a non-divisible one, whatever the other
arguments are, while `NewDefaultAsset`, not divisible either, has `Amount` 1. -/
theorem NewAsset_amount_without_argument (uuid id : String) (updatable refillable : Bool)
    (metadata : List CryptoConditions.Byte) :
    (NewAsset uuid id false updatable refillable metadata []).Amount = 0 ∧
      (NewAsset uuid id true updatable refillable metadata []).Amount = 1 ∧
      (NewDefaultAsset uuid).Divisible = false ∧ (NewDefaultAsset uuid).Amount = 1 := by
  refine ⟨?_, ?_, rfl, rfl⟩
  · simp [NewAsset]
  · simp [NewAsset]


/-- C11, as stated, fails: for the non-divisible asset built by
`NewAsset("a", false, false, false, nil, 5)` the amount list is not empty and
`Amount` is not `amount[0]`. -/
theorem NewAsset_amount_not_read_when_not_divisible :
    ¬ ∀ (uuid id : String) (divisible updatable refillable : Bool)
        (metadata : List CryptoConditions.Byte) (x : Int) (xs : List Int), id ≠ "" →
      (NewAsset uuid id divisible updatable refillable metadata (x :: xs)).Amount = x := by
  intro h
  have := h "u" "a" false false false [] 5 [] (by decide)
  revert this
  decide

/-- C11, amended: for a non-empty `id`, `NewAsset` gives `ID = id`, the three
flags and `Data` equal to the arguments, and, when `divisible` is true and a
non-empty amount list is supplied, `Amount = amount[0]`. -/
theorem NewAsset_fields (uuid id : String) (divisible updatable refillable : Bool)
    (metadata : List CryptoConditions.Byte) (amount : List Int) (hid : id ≠ "") :
    (NewAsset uuid id divisible updatable refillable metadata amount).ID = id ∧
    (NewAsset uuid id divisible updatable refillable metadata amount).Divisible = divisible ∧
    (NewAsset uuid id divisible updatable refillable metadata amount).Updatable = updatable ∧
    (NewAsset uuid id divisible updatable refillable metadata amount).Refillable = refillable ∧
    (NewAsset uuid id divisible updatable refillable metadata amount).Data = metadata ∧
    (divisible = true → ∀ (x : Int) (xs : List Int), amount = x :: xs →
      (NewAsset uuid id divisible updatable refillable metadata amount).Amount = x) := by
  refine ⟨?_, rfl, rfl, rfl, rfl, ?_⟩
  · simp [NewAsset, hid]
  · intro hd x xs hx
    subst hd
    subst hx
    simp [NewAsset]

theorem NewAsset_fields_witness :
    ("a" : String) ≠ "" ∧ (NewAsset "u" "a" true false false [] [5, 7]).Amount = 5 :=
  ⟨by decide,
    (NewAsset_fields "u" "a" true false false [] [5, 7] (by decide)).2.2.2.2.2 rfl 5 [7] rfl⟩

end BigchainDB
